import Mathlib

/-!
Verification of the Buzz live-recording transcription pipeline specification.

The pipeline consists of: audio capture callback feeding a bounded sample
buffer, a batching transcription loop with a silence gate, a transcript
reconciler (append-below / append-above / append-and-correct with a
longest-common-substring merge), and a recording lifecycle controller.

Pure string and buffer algorithms are embedded over `List Char` / `List`;
audio samples are real numbers; effectful operations (device open, process
termination, signal emission) are embedded as explicit state transitions
returning lists of effects.
-/

namespace Buzz

/-! ### Transcript reconciler: `find_common_part`

Modelled from the spec: the widget's `find_common_part` (the repository file
`buzz/widgets/recording_transcriber_widget.py` is not present; only its tests
are).  The spec prescribes: "try all substrings of `previous_text` from
longest to shortest ..., returning the first substring that also occurs
verbatim in `new_text`. If no non-empty common substring exists, return the
empty string", with ties at equal length resolved to the leftmost occurrence
in `previous_text`. -/

/-- The contiguous slice of `l` of length `len` starting at index `i`. -/
def sublistAt (l : List Char) (i len : Nat) : List Char :=
  (l.drop i).take len

/-- Boolean test that `c` occurs verbatim (contiguously) inside `new`. -/
def occursIn (c new : List Char) : Bool :=
  decide (c <:+: new)

/-- All substrings of `prev` of length `len`, scanned left to right; return
the first one that occurs in `new`. -/
def findAtLen (prev new : List Char) (len : Nat) : Option (List Char) :=
  ((List.range (prev.length + 1 - len)).map (fun i => sublistAt prev i len)).find?
    (fun c => occursIn c new)

/-- Sliding-window search: try window lengths `n, n-1, ..., 1`, longest
first, returning the first (leftmost) substring of `prev` of that length
occurring in `new`; empty if none. -/
def fcpAux (prev new : List Char) : Nat → List Char
  | 0 => []
  | n + 1 =>
    match findAtLen prev new (n + 1) with
    | some c => c
    | none => fcpAux prev new n

/-- Modelled from the spec: `find_common_part(previous_text, new_text)` of
`RecordingTranscriberWidget` — the longest contiguous substring occurring in
both texts, searched longest-first and leftmost-first in `previous_text`. -/
def find_common_part (prev new : List Char) : List Char :=
  fcpAux prev new prev.length

/-! #### Supporting lemmas for the sliding-window search -/

theorem find?_map_range_some {β : Type} (p : β → Bool) :
    ∀ (n : Nat) (f : Nat → β) (c : β),
      ((List.range n).map f).find? p = some c →
      ∃ i, i < n ∧ f i = c ∧ p c = true ∧ ∀ j, j < i → p (f j) = false := by
  intro n
  induction n with
  | zero => intro f c h; simp at h
  | succ m ih =>
    intro f c h
    rw [List.range_succ_eq_map, List.map_cons, List.map_map] at h
    by_cases hp : p (f 0) = true
    · rw [List.find?_cons_of_pos _ hp] at h
      refine ⟨0, Nat.succ_pos m, by injection h, ?_, by omega⟩
      · injection h with h; rw [h] at hp; exact hp
    · rw [List.find?_cons_of_neg _ hp] at h
      obtain ⟨i, hi, hfi, hpc, hearlier⟩ := ih (f ∘ Nat.succ) c h
      refine ⟨i + 1, by omega, hfi, hpc, ?_⟩
      intro j hj
      match j with
      | 0 => exact Bool.eq_false_iff.mpr hp
      | k + 1 => exact hearlier k (by omega)

theorem find?_map_range_none {β : Type} (p : β → Bool) (n : Nat) (f : Nat → β)
    (h : ((List.range n).map f).find? p = none) :
    ∀ j, j < n → p (f j) = false := by
  intro j hj
  have hmem : f j ∈ (List.range n).map f :=
    List.mem_map_of_mem f (List.mem_range.mpr hj)
  exact Bool.eq_false_iff.mpr (List.find?_eq_none.mp h (f j) hmem)

theorem sublistAt_isInfix (l : List Char) (i len : Nat) :
    sublistAt l i len <:+: l := by
  refine ⟨l.take i, (l.drop i).drop len, ?_⟩
  rw [sublistAt, List.append_assoc, List.take_append_drop, List.take_append_drop]

theorem sublistAt_length (l : List Char) (i len : Nat) (h : i + len ≤ l.length) :
    (sublistAt l i len).length = len := by
  simp only [sublistAt, List.length_take, List.length_drop]
  omega

theorem isInfix_eq_sublistAt (c l : List Char) (h : c <:+: l) :
    ∃ i, i + c.length ≤ l.length ∧ sublistAt l i c.length = c := by
  obtain ⟨s, t, rfl⟩ := h
  refine ⟨s.length, by simp only [List.length_append]; omega, ?_⟩
  rw [sublistAt, List.append_assoc, List.drop_left, List.take_left]

theorem findAtLen_some (prev new : List Char) (len : Nat) (c : List Char)
    (h : findAtLen prev new len = some c) :
    c <:+: prev ∧ c <:+: new ∧ c.length = len ∧
      ∃ i, sublistAt prev i len = c ∧
        ∀ j, j < i → ¬ (sublistAt prev j len <:+: new) := by
  obtain ⟨i, hi, hfi, hpc, hearlier⟩ := find?_map_range_some _ _ _ _ h
  have hinfp : c <:+: prev := hfi ▸ sublistAt_isInfix prev i len
  have hinfn : c <:+: new := of_decide_eq_true hpc
  have hlen : c.length = len := by
    rw [← hfi]; exact sublistAt_length prev i len (by omega)
  refine ⟨hinfp, hinfn, hlen, i, hfi, ?_⟩
  intro j hj hcon
  have := hearlier j hj
  rw [occursIn, decide_eq_false_iff_not] at this
  exact this hcon

theorem findAtLen_none (prev new : List Char) (len : Nat)
    (h : findAtLen prev new len = none) (c : List Char)
    (hc1 : c <:+: prev) (hc2 : c <:+: new) : c.length ≠ len := by
  intro hlen
  obtain ⟨i, hile, hsub⟩ := isInfix_eq_sublistAt c prev hc1
  have hi : i < prev.length + 1 - len := by omega
  have := find?_map_range_none _ _ _ h i hi
  rw [hlen] at hsub
  rw [hsub, occursIn, decide_eq_false_iff_not] at this
  exact this hc2

theorem fcpAux_isInfix (prev new : List Char) :
    ∀ n, fcpAux prev new n <:+: prev ∧ fcpAux prev new n <:+: new := by
  intro n
  induction n with
  | zero => exact ⟨List.nil_infix, List.nil_infix⟩
  | succ m ih =>
    rw [fcpAux]
    cases h : findAtLen prev new (m + 1) with
    | some c =>
      obtain ⟨h1, h2, _, _⟩ := findAtLen_some prev new (m + 1) c h
      exact ⟨h1, h2⟩
    | none => exact ih

theorem fcpAux_maximal (prev new : List Char) :
    ∀ n (c : List Char), c <:+: prev → c <:+: new → c.length ≤ n →
      c.length ≤ (fcpAux prev new n).length := by
  intro n
  induction n with
  | zero => intro c _ _ h; omega
  | succ m ih =>
    intro c hc1 hc2 hle
    rw [fcpAux]
    cases h : findAtLen prev new (m + 1) with
    | some r =>
      obtain ⟨_, _, hrlen, _⟩ := findAtLen_some prev new (m + 1) r h
      show c.length ≤ r.length
      omega
    | none =>
      have hne := findAtLen_none prev new (m + 1) h c hc1 hc2
      exact ih c hc1 hc2 (by omega)

theorem fcpAux_leftmost (prev new : List Char) :
    ∀ n, fcpAux prev new n ≠ [] →
      ∃ i, sublistAt prev i (fcpAux prev new n).length = fcpAux prev new n ∧
        ∀ j, j < i → ¬ (sublistAt prev j (fcpAux prev new n).length <:+: new) := by
  intro n
  induction n with
  | zero => intro h; exact absurd rfl h
  | succ m ih =>
    intro hne
    rw [fcpAux] at hne ⊢
    cases h : findAtLen prev new (m + 1) with
    | some r =>
      obtain ⟨_, _, hrlen, i, hsub, hearlier⟩ := findAtLen_some prev new (m + 1) r h
      exact ⟨i, by rw [hrlen]; exact hsub, by rw [hrlen]; exact hearlier⟩
    | none =>
      rw [h] at hne
      exact ih hne

/-- C1: `find_common_part(previous_text, new_text)` returns the longest
contiguous substring occurring in both strings (it is a substring of both,
and every common substring is no longer); if either input is empty the
result is empty; and among common substrings of the maximal length the
returned one is the one whose occurrence in `previous_text` is leftmost
(no window of the result's length starting earlier in `previous_text`
occurs in `new_text`).  Includes the spec's P7 instance. -/
theorem find_common_part_spec (prev new : List Char) :
    (find_common_part prev new <:+: prev ∧ find_common_part prev new <:+: new) ∧
    (∀ c : List Char, c <:+: prev → c <:+: new →
        c.length ≤ (find_common_part prev new).length) ∧
    (prev = [] ∨ new = [] → find_common_part prev new = []) ∧
    (find_common_part prev new ≠ [] →
      ∃ i, sublistAt prev i (find_common_part prev new).length = find_common_part prev new ∧
        ∀ j, j < i → ¬ (sublistAt prev j (find_common_part prev new).length <:+: new)) ∧
    find_common_part "hello great and beautiful world".data
        "hello great and beautiful butterfly".data
      = "hello great and beautiful ".data := by
  refine ⟨fcpAux_isInfix prev new prev.length, ?_, ?_, fcpAux_leftmost prev new prev.length, ?_⟩
  · intro c h1 h2
    exact fcpAux_maximal prev new prev.length c h1 h2 h1.length_le
  · rintro (rfl | rfl)
    · rfl
    · exact List.infix_nil.mp (fcpAux_isInfix prev _ prev.length).2
  · decide

/-- Concrete instantiation of `find_common_part_spec`: on the pair
`("ab", "b")` the common substring `"b"` is no longer than the result. -/
theorem find_common_part_spec_witness :
    (('b' :: []) <:+: ('a' :: 'b' :: [])) ∧ (('b' :: []) <:+: ('b' :: [])) ∧
      ('b' :: []).length ≤ (find_common_part ('a' :: 'b' :: []) ('b' :: [])).length :=
  ⟨by decide, by decide,
    (find_common_part_spec ('a' :: 'b' :: []) ('b' :: [])).2.1 ('b' :: [])
      (by decide) (by decide)⟩

/-! ### Transcript reconciler: append-and-correct merge

Modelled from the spec: `RecordingTranscriberWidget.on_next_transcription`
in append-and-correct mode (the widget source file is not present; only its
tests are).  The state keeps the full transcript and the previous batch's
emitted text.  A non-empty overlap replaces the tail of the previous text;
an empty overlap appends the new text after the existing transcript with
the separator (the very first emission, onto an empty transcript, becomes
the transcript verbatim, as the spec's P8 end-to-end instance requires). -/

/-- Index of the first occurrence of `pat` in `l` (meaningful when `pat`
occurs in `l`): scan left to right for the first position where `pat` is a
leading block. -/
def indexOfOcc (pat : List Char) : List Char → Nat
  | [] => 0
  | a :: t => if pat.isPrefixOf (a :: t) then 0 else indexOfOcc pat t + 1

structure MergeState where
  transcript : List Char
  previous : List Char

def initMergeState : MergeState := ⟨[], []⟩

/-- Modelled from the spec: one append-and-correct emission.  Compute
`common = find_common_part(previous, newText)`; if non-empty, keep the
previous text up through the end of the first occurrence of `common` and
append the part of `newText` after its first occurrence of `common`;
otherwise append `newText` after the existing transcript with the
separator.  `newText` becomes the stored previous text either way. -/
def onNextTranscription (sep : List Char) (st : MergeState) (newText : List Char) :
    MergeState :=
  let common := find_common_part st.previous newText
  if common = [] then
    { transcript := if st.transcript = [] then newText else st.transcript ++ sep ++ newText
      previous := newText }
  else
    { transcript :=
        st.previous.take (indexOfOcc common st.previous + common.length) ++
          newText.drop (indexOfOcc common newText + common.length)
      previous := newText }

theorem indexOfOcc_first (pat : List Char) :
    ∀ l : List Char, pat <:+: l →
      sublistAt l (indexOfOcc pat l) pat.length = pat ∧
        ∀ j, j < indexOfOcc pat l → sublistAt l j pat.length ≠ pat := by
  intro l
  induction l with
  | nil =>
    intro h
    rw [List.infix_nil.mp h]
    exact ⟨rfl, by intro j hj; simp [indexOfOcc] at hj⟩
  | cons a t ih =>
    intro h
    by_cases hp : pat.isPrefixOf (a :: t)
    · rw [indexOfOcc, if_pos hp]
      have hpre : pat <+: a :: t := List.isPrefixOf_iff_prefix.mp hp
      constructor
      · rw [sublistAt, List.drop_zero, ← List.prefix_iff_eq_take.mp hpre]
      · omega
    · rw [indexOfOcc, if_neg hp]
      have htail : pat <:+: t := by
        rcases List.infix_cons_iff.mp h with hpre | htl
        · exact absurd (List.isPrefixOf_iff_prefix.mpr hpre) hp
        · exact htl
      obtain ⟨h1, h2⟩ := ih htail
      refine ⟨h1, ?_⟩
      intro j hj
      match j with
      | 0 =>
        intro hcon
        rw [sublistAt, List.drop_zero] at hcon
        exact hp (List.isPrefixOf_iff_prefix.mpr (List.prefix_iff_eq_take.mpr hcon.symm))
      | k + 1 => exact h2 k (by omega)

/-- The merge state produced by a sequence of emitted batch texts in
append-and-correct mode, starting from the empty transcript. -/
def runTranscriptions (sep : List Char) (texts : List (List Char)) : MergeState :=
  texts.foldl (onNextTranscription sep) initMergeState

/-- C2: in append-and-correct mode, for every sequence of emitted batch
texts reaching state `st` and next text `t`: when the common part of the
stored previous text and `t` is non-empty, the merged transcript is the
previous text up through the end of its first occurrence of the common part
followed by the suffix of `t` after its first occurrence of the common part
(and `indexOfOcc` genuinely yields first occurrences); when the common part
is empty, `t` is appended after the existing transcript with the separator
(an empty transcript just becomes `t`); and the spec's P8 French two-batch
instance merges to the expected sentence. -/
theorem on_next_transcription_spec (sep : List Char) (texts : List (List Char))
    (t : List Char) (st : MergeState) (common : List Char)
    (_hst : st = runTranscriptions sep texts)
    (hc : common = find_common_part st.previous t) :
    (common ≠ [] →
      (onNextTranscription sep st t).transcript =
        st.previous.take (indexOfOcc common st.previous + common.length) ++
          t.drop (indexOfOcc common t + common.length) ∧
      (∀ l : List Char, common <:+: l →
        sublistAt l (indexOfOcc common l) common.length = common ∧
          ∀ j, j < indexOfOcc common l → sublistAt l j common.length ≠ common)) ∧
    (common = [] →
      (onNextTranscription sep st t).transcript =
        if st.transcript = [] then t else st.transcript ++ sep ++ t) ∧
    (runTranscriptions "\n\n".data
        ["Bienvenue dans la transcription en direct de Buzz.".data,
         "transcription en direct de Buzz. Ceci est la deuxième phrase.".data]).transcript =
      "Bienvenue dans la transcription en direct de Buzz. Ceci est la deuxième phrase.".data := by
  refine ⟨?_, ?_, by decide⟩
  · intro hne
    subst hc
    refine ⟨?_, fun l hl => indexOfOcc_first _ l hl⟩
    simp only [onNextTranscription, if_neg hne]
  · intro he
    subst hc
    simp only [onNextTranscription, if_pos he]

/-- Concrete instantiation of `on_next_transcription_spec`: after emitting
`"Hello world."`, the next text `"world. Goodbye."` has non-empty overlap
`"world."` and the merged transcript keeps the head of the previous text and
the tail of the new text. -/
theorem on_next_transcription_spec_witness :
    find_common_part (runTranscriptions " ".data ["Hello world.".data]).previous
        "world. Goodbye.".data ≠ [] ∧
      (onNextTranscription " ".data (runTranscriptions " ".data ["Hello world.".data])
            "world. Goodbye.".data).transcript =
        (runTranscriptions " ".data ["Hello world.".data]).previous.take
            (indexOfOcc
                (find_common_part (runTranscriptions " ".data ["Hello world.".data]).previous
                  "world. Goodbye.".data)
                (runTranscriptions " ".data ["Hello world.".data]).previous +
              (find_common_part (runTranscriptions " ".data ["Hello world.".data]).previous
                  "world. Goodbye.".data).length) ++
          "world. Goodbye.".data.drop
            (indexOfOcc
                (find_common_part (runTranscriptions " ".data ["Hello world.".data]).previous
                  "world. Goodbye.".data)
                "world. Goodbye.".data +
              (find_common_part (runTranscriptions " ".data ["Hello world.".data]).previous
                  "world. Goodbye.".data).length) :=
  ⟨by decide,
    ((on_next_transcription_spec " ".data ["Hello world.".data] "world. Goodbye.".data
          (runTranscriptions " ".data ["Hello world.".data]) _ rfl rfl).1
        (by decide)).1⟩

/-! ### StreamingBuffer producer side: the capture callback

Modelled from the spec: `RecordingTranscriber.stream_callback` (the
transcriber source file is not present; only its tests are).  "Atomically
check current buffer size against `max_queue_size`; if appending the chunk
would exceed it, drop the chunk entirely (no partial append, no error
raised) and return immediately", otherwise append the chunk's samples to
the tail of the buffer. -/

/-- One capture-callback arrival: drop the chunk when appending it would
exceed `maxQ`, otherwise append it at the tail. -/
def on_chunk_received {α : Type} (maxQ : Nat) (queue chunk : List α) : List α :=
  if maxQ < queue.length + chunk.length then queue else queue ++ chunk

theorem on_chunk_received_le {α : Type} (maxQ : Nat) (queue chunk : List α)
    (h : queue.length ≤ maxQ) :
    (on_chunk_received maxQ queue chunk).length ≤ maxQ := by
  rw [on_chunk_received]
  split
  · exact h
  · rw [List.length_append]; omega

theorem foldl_chunks_le {α : Type} (maxQ : Nat) :
    ∀ (chunks : List (List α)) (queue : List α), queue.length ≤ maxQ →
      (chunks.foldl (on_chunk_received maxQ) queue).length ≤ maxQ := by
  intro chunks
  induction chunks with
  | nil => intro queue h; exact h
  | cons c rest ih =>
    intro queue h
    exact ih _ (on_chunk_received_le maxQ queue c h)

/-- C3: for every sequence of chunk arrivals delivered to the capture
callback (starting from the empty buffer created at recording start), the
buffer size never exceeds `maxQ`; and a chunk whose append would exceed
`maxQ` leaves the buffer exactly unchanged — no partial append (the
function is total, so no error is raised). -/
theorem stream_callback_bounded {α : Type} (maxQ : Nat) (chunks : List (List α)) :
    ((chunks.foldl (on_chunk_received maxQ) []).length ≤ maxQ) ∧
      (∀ queue chunk : List α, maxQ < queue.length + chunk.length →
        on_chunk_received maxQ queue chunk = queue) := by
  constructor
  · exact foldl_chunks_le maxQ chunks [] (by simp)
  · intro queue chunk h
    rw [on_chunk_received, if_pos h]

/-- Concrete instantiation of `stream_callback_bounded` with `maxQ = 2`:
three arrivals keep the buffer within bound, and an over-full append at a
full buffer is dropped whole. -/
theorem stream_callback_bounded_witness :
    ((([[1], [2, 3], [4]] : List (List Nat)).foldl (on_chunk_received 2) []).length ≤ 2) ∧
      (2 < ([1, 2] : List Nat).length + ([3] : List Nat).length ∧
        on_chunk_received 2 ([1, 2] : List Nat) [3] = [1, 2]) :=
  ⟨(stream_callback_bounded 2 [[1], [2, 3], [4]]).1,
    by decide,
    (stream_callback_bounded 2 [[1], [2, 3], [4]]).2 [1, 2] [3] (by decide)⟩

/-! ### AmplitudeMeter

From the source `buzz/recording.py` line 47: the amplitude of a chunk is
`np.sqrt(np.mean(chunk ** 2))` — the root-mean-square; the same formula is
`RecordingTranscriber.amplitude` in the transcriber tests.  Floating-point
arithmetic is embedded over the real numbers. -/

/-- RMS amplitude of a chunk: `sqrt(mean(x_i^2))`. -/
noncomputable def amplitude (chunk : List ℝ) : ℝ :=
  Real.sqrt ((chunk.map (fun x => x ^ 2)).sum / chunk.length)

theorem amplitude_const (chunk : List ℝ) (a : ℝ) (hne : chunk ≠ [])
    (hconst : ∀ x ∈ chunk, x = a) : amplitude chunk = |a| := by
  have hmap : ∀ y ∈ chunk.map (fun x => x ^ 2), y = a ^ 2 := by
    intro y hy
    obtain ⟨x, hx, rfl⟩ := List.mem_map.mp hy
    rw [hconst x hx]
  have hsum : (chunk.map (fun x => x ^ 2)).sum = chunk.length • (a ^ 2) := by
    rw [List.sum_eq_card_nsmul _ _ hmap, List.length_map]
  have hlen : (chunk.length : ℝ) ≠ 0 :=
    Nat.cast_ne_zero.mpr (fun h0 => hne (List.length_eq_zero.mp h0))
  rw [amplitude, hsum, nsmul_eq_mul, mul_comm, mul_div_assoc,
    div_self hlen, mul_one, Real.sqrt_sq_eq_abs]

theorem amplitude_all_zero (chunk : List ℝ) (hzero : ∀ x ∈ chunk, x = 0) :
    amplitude chunk = 0 := by
  have hmap : ∀ y ∈ chunk.map (fun x => x ^ 2), y = 0 := by
    intro y hy
    obtain ⟨x, hx, rfl⟩ := List.mem_map.mp hy
    rw [hzero x hx]
    ring
  have hsum : (chunk.map (fun x => x ^ 2)).sum = 0 := by
    rw [List.sum_eq_card_nsmul _ _ hmap, smul_zero]
  rw [amplitude, hsum, zero_div, Real.sqrt_zero]

/-- C6: `amplitude` computes the RMS `sqrt(mean(x_i^2))` as a pure
function: every non-empty constant chunk of value `a` has amplitude `|a|`,
and every all-zero chunk has amplitude `0`. -/
theorem amplitude_spec :
    (∀ (chunk : List ℝ) (a : ℝ), chunk ≠ [] → (∀ x ∈ chunk, x = a) →
        amplitude chunk = |a|) ∧
      (∀ chunk : List ℝ, (∀ x ∈ chunk, x = 0) → amplitude chunk = 0) :=
  ⟨amplitude_const, amplitude_all_zero⟩

/-- Concrete instantiation of `amplitude_spec`: the constant chunk
`[2, 2]` has amplitude `|2|`, and the all-zero chunk `[0]` has amplitude
`0`. -/
theorem amplitude_spec_witness :
    (([(2 : ℝ), 2] : List ℝ) ≠ [] ∧ amplitude [(2 : ℝ), 2] = |(2 : ℝ)|) ∧
      amplitude [(0 : ℝ)] = 0 :=
  ⟨⟨by simp, amplitude_spec.1 [2, 2] 2 (by simp) (by simp)⟩,
    amplitude_spec.2 [0] (by simp)⟩

/-! ### BatchingTranscriptionLoop: one loop iteration and the silence gate

Modelled from the spec: one iteration of the `RecordingTranscriber.start`
loop (the transcriber source file is not present; only its tests are).
When the buffer holds at least `n_batch_samples`, pop a batch, retain
`keep` samples of overlap, compute amplitude, and either skip transcription
(silence gate) or invoke the blocking backend once and emit its result. -/

structure BatchParams where
  nBatch : Nat
  keep : Nat
  silenceThreshold : ℝ

/-- One iteration of the transcription loop: `none` when not enough
samples are buffered; otherwise the remaining buffer together with the
texts emitted for this batch and the number of backend invocations. -/
noncomputable def loop_step (cfg : BatchParams) (transcribe : List ℝ → String)
    (queue : List ℝ) : Option (List ℝ × List String × Nat) :=
  if cfg.nBatch ≤ queue.length then
    if amplitude (queue.take cfg.nBatch) < cfg.silenceThreshold then
      some (queue.drop (cfg.nBatch - cfg.keep), [], 0)
    else
      some (queue.drop (cfg.nBatch - cfg.keep), [transcribe (queue.take cfg.nBatch)], 1)
  else none

/-- C4: whenever the popped batch's RMS amplitude is below the silence
threshold, the loop iteration emits zero transcription results and performs
zero backend invocations. -/
theorem silence_gate_spec (cfg : BatchParams) (transcribe : List ℝ → String)
    (queue : List ℝ) (hlen : cfg.nBatch ≤ queue.length)
    (hsil : amplitude (queue.take cfg.nBatch) < cfg.silenceThreshold) :
    loop_step cfg transcribe queue =
      some (queue.drop (cfg.nBatch - cfg.keep), [], 0) := by
  rw [loop_step, if_pos hlen, if_pos hsil]

/-- Concrete instantiation of `silence_gate_spec`: a silent three-sample
buffer with a batch size of two and threshold one is skipped. -/
theorem silence_gate_spec_witness :
    loop_step ⟨2, 1, 1⟩ (fun _ => "text") [(0 : ℝ), 0, 0] =
      some ([(0 : ℝ), 0, 0].drop 1, [], 0) :=
  silence_gate_spec ⟨2, 1, 1⟩ (fun _ => "text") [0, 0, 0] (by simp)
    (by rw [amplitude_all_zero _ (by simp [List.take])]; norm_num)

/-! ### Batch configuration derived from the recording mode

Modelled from the spec: the `RecordingTranscriber` constructor derives the
batch size, overlap retention and queue bound from the recording mode (the
transcriber source file is not present; only its tests are). -/

inductive RecordingMode where
  | appendBelow
  | appendAbove
  | appendAndCorrect
deriving DecidableEq

/-- Batch size in samples: 3 seconds of audio in append-and-correct mode,
5 seconds otherwise. -/
def n_batch_samples (mode : RecordingMode) (sample_rate : Nat) : Nat :=
  (if mode = RecordingMode.appendAndCorrect then 3 else 5) * sample_rate

/-- Seconds of popped audio retained for overlap: 1.5 in append-and-correct
mode, 0.15 otherwise. -/
def keep_sample_seconds (mode : RecordingMode) : ℚ :=
  if mode = RecordingMode.appendAndCorrect then 3 / 2 else 3 / 20

/-- Queue bound: three batches of headroom. -/
def max_queue_size (mode : RecordingMode) (sample_rate : Nat) : Nat :=
  3 * n_batch_samples mode sample_rate

/-- C5: in append-and-correct mode the batch holds 3 seconds of samples
and 1.5 seconds are retained; in every other mode the batch holds 5
seconds and 0.15 seconds are retained; in all modes the queue bound is
three batches. -/
theorem batch_config_spec (mode : RecordingMode) (sample_rate : Nat) :
    (mode = RecordingMode.appendAndCorrect →
      n_batch_samples mode sample_rate = 3 * sample_rate ∧
        keep_sample_seconds mode = 3 / 2) ∧
    (mode ≠ RecordingMode.appendAndCorrect →
      n_batch_samples mode sample_rate = 5 * sample_rate ∧
        keep_sample_seconds mode = 3 / 20) ∧
    max_queue_size mode sample_rate = 3 * n_batch_samples mode sample_rate := by
  refine ⟨?_, ?_, rfl⟩
  · intro h
    rw [n_batch_samples, keep_sample_seconds, if_pos h, if_pos h]
    exact ⟨rfl, rfl⟩
  · intro h
    rw [n_batch_samples, keep_sample_seconds, if_neg h, if_neg h]
    exact ⟨rfl, rfl⟩

/-- Concrete instantiation of `batch_config_spec` at a 16 kHz sample rate:
append-and-correct batches are 48000 samples with 1.5 s retention, and
append-below batches are 80000 samples with 0.15 s retention. -/
theorem batch_config_spec_witness :
    (n_batch_samples RecordingMode.appendAndCorrect 16000 = 48000 ∧
        keep_sample_seconds RecordingMode.appendAndCorrect = 3 / 2) ∧
      (n_batch_samples RecordingMode.appendBelow 16000 = 80000 ∧
        keep_sample_seconds RecordingMode.appendBelow = 3 / 20) ∧
      max_queue_size RecordingMode.appendBelow 16000 =
        3 * n_batch_samples RecordingMode.appendBelow 16000 :=
  ⟨(batch_config_spec RecordingMode.appendAndCorrect 16000).1 rfl,
    (batch_config_spec RecordingMode.appendBelow 16000).2.1 (by decide),
    (batch_config_spec RecordingMode.appendBelow 16000).2.2⟩

/-! ### Lifecycle: stopping a session holding an external backend process

Modelled from the spec: `RecordingTranscriber.stop_recording` (the
transcriber source file is not present; only its tests are).  Stopping
clears the running flag; a held external process that has already exited is
left alone, a live one is terminated gracefully and waited on with a
bounded timeout, and killed only if the wait times out. -/

inductive WaitOutcome where
  | completed
  | timedOut
deriving DecidableEq

/-- The externally observable state of a held backend process: whether
`poll()` reports it exited, and how a bounded `wait` would end. -/
structure BackendProcess where
  exited : Bool
  waitOutcome : WaitOutcome

inductive ProcAction where
  | terminate
  | wait
  | kill
deriving DecidableEq

/-- Modelled from the spec: the stop request.  Returns the running flag
after the call and the ordered process actions performed. -/
def stop_recording (process : Option BackendProcess) : Bool × List ProcAction :=
  ⟨false,
    match process with
    | none => []
    | some p =>
      if p.exited then []
      else
        match p.waitOutcome with
        | WaitOutcome.completed => [ProcAction.terminate, ProcAction.wait]
        | WaitOutcome.timedOut =>
            [ProcAction.terminate, ProcAction.wait, ProcAction.kill]⟩

/-- C7: on stop, an already-exited process gets no terminate; a live
process is terminated then waited on; a timed-out wait escalates to kill;
and the running flag is always cleared. -/
theorem stop_recording_spec (process : Option BackendProcess) :
    ((stop_recording process).1 = false) ∧
    (∀ p : BackendProcess, process = some p → p.exited = true →
      ProcAction.terminate ∉ (stop_recording process).2) ∧
    (∀ p : BackendProcess, process = some p → p.exited = false →
      p.waitOutcome = WaitOutcome.completed →
      (stop_recording process).2 = [ProcAction.terminate, ProcAction.wait]) ∧
    (∀ p : BackendProcess, process = some p → p.exited = false →
      p.waitOutcome = WaitOutcome.timedOut →
      (stop_recording process).2 =
        [ProcAction.terminate, ProcAction.wait, ProcAction.kill]) := by
  refine ⟨rfl, ?_, ?_, ?_⟩
  · rintro p rfl hex
    simp [stop_recording, hex]
  · rintro p rfl hex hw
    simp [stop_recording, hex, hw]
  · rintro p rfl hex hw
    simp [stop_recording, hex, hw]

/-- Concrete instantiation of `stop_recording_spec`: an exited process is
not terminated, and a live process whose wait times out is terminated,
waited on, then killed. -/
theorem stop_recording_spec_witness :
    (ProcAction.terminate ∉ (stop_recording (some ⟨true, WaitOutcome.completed⟩)).2) ∧
      (stop_recording (some ⟨false, WaitOutcome.timedOut⟩)).2 =
        [ProcAction.terminate, ProcAction.wait, ProcAction.kill] ∧
      (stop_recording none).1 = false :=
  ⟨(stop_recording_spec (some ⟨true, WaitOutcome.completed⟩)).2.1 _ rfl rfl,
    (stop_recording_spec (some ⟨false, WaitOutcome.timedOut⟩)).2.2.2 _ rfl rfl rfl,
    (stop_recording_spec none).1⟩

/-! ### Lifecycle: starting a session when the audio device fails to open

Modelled from the spec: `RecordingTranscriber.start` when opening the
input stream raises a driver-level error (the transcriber source file is
not present; only its tests are).  The loop never starts, exactly one
error notification is emitted, and the session ends stopped with no
automatic retry (a single open attempt is made). -/

inductive SessionState where
  | stopped
  | recording
deriving DecidableEq

/-- Outcome of one start request: error notifications emitted, number of
transcription-loop iterations executed, and the final lifecycle state. -/
structure StartOutcome where
  errors : List String
  loopRuns : Nat
  final : SessionState

/-- Modelled from the spec: one start request against a device whose open
attempt yields `openResult`; when the device opens, the loop runs for some
number of iterations before the session stops. -/
def start_session (openResult : Except String Unit) (runLoop : Unit → Nat) :
    StartOutcome :=
  match openResult with
  | Except.error e => { errors := [e], loopRuns := 0, final := SessionState.stopped }
  | Except.ok _ => { errors := [], loopRuns := runLoop (), final := SessionState.stopped }

/-- C8: when opening the audio input device fails, the transcription loop
never runs, exactly one error notification (carrying the device error) is
emitted, and the session ends stopped. -/
theorem start_device_error_spec (openResult : Except String Unit)
    (runLoop : Unit → Nat) (e : String) (h : openResult = Except.error e) :
    (start_session openResult runLoop).errors = [e] ∧
      (start_session openResult runLoop).loopRuns = 0 ∧
      (start_session openResult runLoop).final = SessionState.stopped := by
  subst h
  exact ⟨rfl, rfl, rfl⟩

/-- Concrete instantiation of `start_device_error_spec` with a PortAudio
failure. -/
theorem start_device_error_spec_witness :
    (start_session (Except.error "PortAudioError") (fun _ => 7)).errors =
        ["PortAudioError"] ∧
      (start_session (Except.error "PortAudioError") (fun _ => 7)).loopRuns = 0 ∧
      (start_session (Except.error "PortAudioError") (fun _ => 7)).final =
        SessionState.stopped :=
  start_device_error_spec (Except.error "PortAudioError") (fun _ => 7)
    "PortAudioError" rfl

/-! ### Negotiating the device sample rate

Modelled from the spec: `RecordingTranscriber.get_device_sample_rate` (the
transcriber source file is not present; only its tests are).  Request the
Whisper-native 16 kHz rate; if the device check fails, fall back to the
device's reported default rate (and to the native rate again when the
device reports none). -/

def whisper_sample_rate : Nat := 16000

/-- Modelled from the spec: `checkOk` is whether the device accepts the
requested native rate; `deviceDefault` is the default sample rate the
device reports, when it reports one. -/
def get_device_sample_rate (checkOk : Bool) (deviceDefault : Option Nat) : Nat :=
  if checkOk then whisper_sample_rate
  else
    match deviceDefault with
    | some d => d
    | none => whisper_sample_rate

/-- C9: the requested rate is the Whisper-native 16 kHz and is returned
whenever the device supports it; when the check fails and the device
reports a default rate, that default is returned. -/
theorem get_device_sample_rate_spec (checkOk : Bool) (deviceDefault : Option Nat) :
    (checkOk = true → get_device_sample_rate checkOk deviceDefault = 16000) ∧
      (checkOk = false → ∀ d, deviceDefault = some d →
        get_device_sample_rate checkOk deviceDefault = d) := by
  constructor
  · rintro rfl
    rfl
  · rintro rfl d rfl
    rfl

/-- Concrete instantiation of `get_device_sample_rate_spec`: a supported
check yields 16000, and a failed check with a reported default of 44100
yields 44100. -/
theorem get_device_sample_rate_spec_witness :
    get_device_sample_rate true (some 44100) = 16000 ∧
      get_device_sample_rate false (some 44100) = 44100 :=
  ⟨(get_device_sample_rate_spec true (some 44100)).1 rfl,
    (get_device_sample_rate_spec false (some 44100)).2 rfl 44100 rfl⟩

/-! ### RecordingAmplitudeListener.start_recording (from `buzz/recording.py`)

From the source: `start_recording` wraps stream creation and start in a
try/except over all exceptions; on any failure it calls `stop_recording`
and logs the exception.  The class exposes only the `amplitude_changed`
and `average_amplitude_changed` signals — there is no error signal, and
none is emitted on the failure path. -/

/-- The observable effects of the listener: stream control, logging, and
the two Qt signals the class declares. -/
inductive ListenerEffect where
  | streamStop
  | streamClose
  | logException (msg : String)
  | emitAmplitude (v : ℝ)
  | emitAverageAmplitude (v : ℝ)

structure ListenerState where
  stream : Option Nat
  accumulation_size : Nat

def ACCUMULATION_SECONDS : Nat := 1

/-- From the source: `stop_recording` stops and closes the stream when one
is held, and does nothing otherwise. -/
def listener_stop_recording (st : ListenerState) : List ListenerEffect :=
  match st.stream with
  | none => []
  | some _ => [ListenerEffect.streamStop, ListenerEffect.streamClose]

/-- How the attempt to create and start the input stream can end: stream
creation raises, `stream.start()` raises after creation, or both succeed
(yielding the handle and the negotiated sample rate). -/
inductive OpenOutcome where
  | createFailed (msg : String)
  | startFailed (handle : Nat) (msg : String)
  | opened (handle : Nat) (samplerate : Nat)

/-- From the source: `start_recording`.  On success the stream handle is
stored and the accumulation size derived from the sample rate; on any
exception `stop_recording` runs and the failure is logged. -/
def listener_start_recording (st : ListenerState) (o : OpenOutcome) :
    ListenerState × List ListenerEffect :=
  match o with
  | OpenOutcome.opened h rate =>
      ({ stream := some h, accumulation_size := rate * ACCUMULATION_SECONDS }, [])
  | OpenOutcome.createFailed e =>
      (st, listener_stop_recording st ++ [ListenerEffect.logException e])
  | OpenOutcome.startFailed h e =>
      ({ st with stream := some h },
        listener_stop_recording { st with stream := some h } ++
          [ListenerEffect.logException e])

theorem listenerEffect_not_emit (e : String) :
    ∀ eff : ListenerEffect,
      (eff = ListenerEffect.streamStop ∨ eff = ListenerEffect.streamClose ∨
        eff = ListenerEffect.logException e) →
      (∀ v, eff ≠ ListenerEffect.emitAmplitude v) ∧
        (∀ v, eff ≠ ListenerEffect.emitAverageAmplitude v) := by
  rintro eff (rfl | rfl | rfl) <;> constructor <;> intro v hv <;> cases hv

/-- C10: `start_recording` never propagates a failure: for every failure
while creating or starting the input stream, the result is an ordinary
state (the function is total), the effects are exactly those of the
invoked `stop_recording` followed by a log of the failure, and no signal —
in particular no error notification — is emitted to subscribers. -/
theorem listener_start_recording_failure_spec (st : ListenerState)
    (o : OpenOutcome) (e : String)
    (h : o = OpenOutcome.createFailed e ∨ ∃ hd, o = OpenOutcome.startFailed hd e) :
    (listener_start_recording st o).2 =
        listener_stop_recording (listener_start_recording st o).1 ++
          [ListenerEffect.logException e] ∧
      ∀ eff ∈ (listener_start_recording st o).2,
        (∀ v, eff ≠ ListenerEffect.emitAmplitude v) ∧
          (∀ v, eff ≠ ListenerEffect.emitAverageAmplitude v) := by
  rcases h with rfl | ⟨hd, rfl⟩
  · refine ⟨rfl, ?_⟩
    intro eff heff
    refine listenerEffect_not_emit e eff ?_
    cases hs : st.stream with
    | none =>
        simp [listener_start_recording, listener_stop_recording, hs] at heff
        exact Or.inr (Or.inr heff)
    | some k =>
        simp [listener_start_recording, listener_stop_recording, hs] at heff
        tauto
  · refine ⟨rfl, ?_⟩
    intro eff heff
    refine listenerEffect_not_emit e eff ?_
    simp [listener_start_recording, listener_stop_recording] at heff
    tauto

/-- Concrete instantiation of `listener_start_recording_failure_spec`: a
stream-creation failure on a fresh listener produces only the (empty)
stop-recording effects and a log entry, and emits nothing. -/
theorem listener_start_recording_failure_spec_witness :
    (listener_start_recording ⟨none, 0⟩ (OpenOutcome.createFailed "boom")).2 =
        listener_stop_recording
            (listener_start_recording ⟨none, 0⟩ (OpenOutcome.createFailed "boom")).1 ++
          [ListenerEffect.logException "boom"] ∧
      ∀ eff ∈ (listener_start_recording ⟨none, 0⟩ (OpenOutcome.createFailed "boom")).2,
        (∀ v, eff ≠ ListenerEffect.emitAmplitude v) ∧
          (∀ v, eff ≠ ListenerEffect.emitAverageAmplitude v) :=
  listener_start_recording_failure_spec ⟨none, 0⟩ (OpenOutcome.createFailed "boom")
    "boom" (Or.inl rfl)

end Buzz
